import Mathlib

/-!
Shallow embedding of the two fuzzer scripts
(`generic-lc-lut-1-cell_mask.py` and `generic-lc-lut-4-rand_all.py`):
the pattern encoder, the diff analyzer, the chain-statistics analyzer
and the row-extension record builder, together with theorems about them.

Verilog literal strings are embedded as `List Char`; Python exceptions
become `Except String`; the module-level random generator becomes an
explicit bit supply `rng : Nat → Nat → Bool` (slot index, bit index);
Python `set` becomes `Finset Nat`.
-/

namespace Foxtrot

/-- A literal string, character by character. -/
abbrev Bits := List Char

/-- Python `s.partition("b")[2]`: everything after the first `b`
(empty when no `b` occurs). -/
def afterFirstB (s : Bits) : Bits :=
  (s.dropWhile (fun c => c ≠ 'b')).tail

/-- Python `s.split("b")[-1]`: everything after the last `b`
(the whole string when no `b` occurs). -/
def afterLastB (s : Bits) : Bits :=
  (s.reverse.takeWhile (fun c => c ≠ 'b')).reverse

/-- Python `s.replace("_", "")`. -/
def stripUnderscores (s : Bits) : Bits :=
  s.filter (fun c => c ≠ '_')

/-- The explicit declared bit-width of a source-form literal such as
`16'b0001_0110_0110_1000`: the decimal number its leading digits spell. -/
def declaredWidth (s : Bits) : Nat :=
  (s.takeWhile Char.isDigit).foldl (fun a c => 10 * a + (c.toNat - 48)) 0

/-- A width-tagged flat literal, the embedding of the Python return value
`f"{len(bits)}'b{bits}"`. -/
structure VerilogLiteral where
  width : Nat
  bits : Bits
deriving DecidableEq, Repr

/-- `_generate_init_values` of `generic-lc-lut-1-cell_mask.py`:
strip the pattern after the first `b`, drop underscores, demand `2^k`
bits, and repeat the content `n` times into one flat literal. -/
def _generate_init_values (n k : Nat) (pattern : Bits) : Except String VerilogLiteral :=
  let bits := stripUnderscores (afterFirstB pattern)
  let lut_bits := 2 ^ k
  if bits.length ≠ lut_bits then
    .error "INIT pattern bit count mismatch"
  else
    let repeated := (List.replicate n bits).flatten
    .ok ⟨repeated.length, repeated⟩

/-- `_plain_bits` of `generic-lc-lut-4-rand_all.py`: strip the pattern
after the last `b`, drop underscores, demand `2^k` bits. -/
def _plain_bits (pattern : Bits) (k : Nat) : Except String Bits :=
  let bits := stripUnderscores (afterLastB pattern)
  if bits.length ≠ 2 ^ k then
    .error "pattern bit count mismatch"
  else
    .ok bits

/-- The list comprehension `[_plain_bits(pat, k) for pat in static_patterns]`:
encode left to right, propagating the first failure. -/
def encodeAll (k : Nat) : List Bits → Except String (List Bits)
  | [] => .ok []
  | p :: ps =>
    match _plain_bits p k with
    | .error e => .error e
    | .ok b =>
      match encodeAll k ps with
      | .error e => .error e
      | .ok rest => .ok (b :: rest)

/-- One freshly drawn random `INIT` pattern:
`"".join(random.choice("01") for _ in range(lut_bits))`, with the random
source made explicit as `rng slot bit`. -/
def randSlot (rng : Nat → Nat → Bool) (lut_bits slot : Nat) : Bits :=
  (List.range lut_bits).map (fun j => if rng slot j then '1' else '0')

/-- `_build_flat_init_literal` of `generic-lc-lut-4-rand_all.py`:
encode the static patterns, fail when they outnumber the `n` chain slots,
fill the remaining slots with random content, and concatenate in reverse
order so the last LUT becomes the most-significant slice. -/
def _build_flat_init_literal (n k : Nat) (static_patterns : List Bits)
    (rng : Nat → Nat → Bool) : Except String VerilogLiteral :=
  match encodeAll k static_patterns with
  | .error e => .error e
  | .ok static_bits =>
    if static_bits.length > n then
      .error "More static patterns than LUTs in the chain"
    else
      let filled := static_bits ++ (List.range (n - static_bits.length)).map
        (fun i => randSlot rng (2 ^ k) (static_bits.length + i))
      .ok ⟨filled.reverse.flatten.length, filled.reverse.flatten⟩

/-- A build result row as the diff analyzer reads it:
`param_index`, `success`, and `data.offsets` as a set. -/
structure BuildResult where
  param_index : Int
  success : Bool
  offsets : Finset Nat
deriving DecidableEq

/-- The diff analyzer's output: the sorted symmetric difference and the
affected-LUT count. -/
structure DiffReport where
  bit_offsets : List Nat
  lut_count : Nat
deriving DecidableEq, Repr

/-- `math.ceil(m / (1 << k))` on natural numbers. -/
def ceilPow2Div (m k : Nat) : Nat :=
  (m + 2 ^ k - 1) / 2 ^ k

/-- `_analyze_results` of `generic-lc-lut-1-cell_mask.py`: return `none`
(the logged early return: no report, no `.off` artifact, no DB rows) when
the group does not hold exactly two parameter sets or when a result row
with `param_index` 0 or 1 is missing; otherwise diff the two offset sets.
`success` is never consulted. -/
def _analyze_results (dynParamCount : Nat) (results : List BuildResult)
    (k : Nat) : Option DiffReport :=
  if dynParamCount ≠ 2 then none
  else
    match results.find? (fun r => r.param_index = 0),
          results.find? (fun r => r.param_index = 1) with
    | some base, some inv =>
        let xor := (symmDiff base.offsets inv.offsets).sort (· ≤ ·)
        some ⟨xor, ceilPow2Div xor.length k⟩
    | _, _ => none

/-- The row context handed to the `_extra` closure; `param_index` may be
absent from the row. -/
structure RowCtx where
  param_index : Option Int
deriving DecidableEq

/-- The row-extension record the `_extra` closure returns. -/
structure ExtraCols where
  pattern_type : String
  lut_config_bits_file : String
  lut_config_bits : String
  activated_luts : String
deriving DecidableEq, Repr

/-- The `_extra` closure of `generic-lc-lut-1-cell_mask.py`:
`idx = (res or \x7b\x7d).get("param_index", -1)`, tag `"base"` exactly when
`idx == 0`, and carry the shared artifact path, comma-joined bit list and
affected-LUT count on every row. -/
def _extra (off_path : String) (xor : List Nat) (activated : Nat)
    (res : Option RowCtx) : ExtraCols :=
  let idx : Int := (res.map (fun r => r.param_index.getD (-1))).getD (-1)
  { pattern_type := if idx = 0 then "base" else "inverted"
    lut_config_bits_file := off_path
    lut_config_bits := String.intercalate "," (xor.map toString)
    activated_luts := toString activated }

/-- The `verilog_parameters` mapping the chain-statistics analyzer
compares and reads `N` from. -/
structure VParams where
  N : Nat
  K : Nat
  INIT : VerilogLiteral
deriving DecidableEq

/-- A result row as the chain-statistics analyzer reads it. -/
structure ResultRow where
  success : Bool
  vparams : VParams
  offsets : List Nat
deriving DecidableEq

/-- The chain statistics record. -/
structure ChainStats where
  total_luts : Nat
  total_bits : Nat
  bits_per_lut : ℚ
deriving DecidableEq

/-- `analyze_results` of `generic-lc-lut-4-rand_all.py`: find the first
successful result whose `verilog_parameters` equal the group's parameter
set; `ok none` is the printed skip (no ChainStats, no DB rows); a zero
`N` is Python's `ZeroDivisionError` at the `total_bits / total_luts`
rendering. -/
def analyze_results (results : List ResultRow) (param_set : VParams) :
    Except String (Option ChainStats) :=
  match results.find? (fun r => r.success && r.vparams == param_set) with
  | none => .ok none
  | some result =>
      let total_bits := result.offsets.length
      let total_luts := param_set.N
      if total_luts = 0 then .error "ZeroDivisionError"
      else .ok (some ⟨total_luts, total_bits, (total_bits : ℚ) / (total_luts : ℚ)⟩)

/-- Python `f"{q:.2f}"` on a nonnegative rational, as the integer number
of hundredths it prints: `3.99` is `399`. -/
def render2 (q : ℚ) : ℤ :=
  round (q * 100)

/-! ## Helper lemmas -/

/-- `ceilPow2Div` is the mathematical ceiling of the rational division. -/
theorem ceilPow2Div_cast (m k : Nat) :
    (ceilPow2Div m k : ℤ) = ⌈(m : ℚ) / ((2 : ℚ) ^ k)⌉ := by
  have hdn : 0 < 2 ^ k := Nat.pos_pow_of_pos k (by norm_num)
  have hd : (0 : ℚ) < (2 : ℚ) ^ k := by positivity
  have hcd : ceilPow2Div m k = m ⌈/⌉ 2 ^ k := (Nat.ceilDiv_eq_add_pred_div m (2 ^ k)).symm
  have h1 : m ≤ 2 ^ k * ceilPow2Div m k := by
    have h : m ≤ 2 ^ k • (m ⌈/⌉ 2 ^ k) := le_smul_ceilDiv hdn
    simpa [hcd, smul_eq_mul] using h
  have h2 : ceilPow2Div m k * 2 ^ k ≤ m + 2 ^ k - 1 :=
    Nat.div_mul_le_self (m + 2 ^ k - 1) (2 ^ k)
  rw [eq_comm, Int.ceil_eq_iff]
  constructor
  · rw [lt_div_iff₀ hd]
    have h2' : ceilPow2Div m k * 2 ^ k < m + 2 ^ k := lt_of_le_of_lt h2 (by omega)
    have hq : ((ceilPow2Div m k * 2 ^ k : ℕ) : ℚ) < ((m + 2 ^ k : ℕ) : ℚ) := by
      exact_mod_cast h2'
    push_cast at hq ⊢
    nlinarith
  · rw [div_le_iff₀ hd]
    have hq : ((m : ℕ) : ℚ) ≤ ((2 ^ k * ceilPow2Div m k : ℕ) : ℚ) := by exact_mod_cast h1
    push_cast at hq ⊢
    linarith

/-- Successful encoding returns the stripped content itself. -/
theorem _plain_bits_ok (p : Bits) (k : Nat) (bs : Bits)
    (h : _plain_bits p k = .ok bs) :
    bs = stripUnderscores (afterLastB p) ∧ bs.length = 2 ^ k := by
  by_cases hlen : (stripUnderscores (afterLastB p)).length = 2 ^ k
  · unfold _plain_bits at h
    simp only [hlen, ne_eq, not_true_eq_false, if_false, Except.ok.injEq] at h
    exact ⟨h.symm, h ▸ hlen⟩
  · unfold _plain_bits at h
    simp [hlen] at h

/-- `encodeAll` preserves the number of patterns. -/
theorem encodeAll_length (k : Nat) :
    ∀ (pats : List Bits) (L : List Bits), encodeAll k pats = .ok L → L.length = pats.length := by
  intro pats
  induction pats with
  | nil => intro L h; cases h; rfl
  | cons p ps ih =>
    intro L h
    unfold encodeAll at h
    cases hb : _plain_bits p k with
    | error e => rw [hb] at h; exact absurd h (by simp)
    | ok b =>
      rw [hb] at h
      cases hr : encodeAll k ps with
      | error e => rw [hr] at h; exact absurd h (by simp)
      | ok rest =>
        rw [hr] at h
        simp only [Except.ok.injEq] at h
        subst h
        simp [ih rest hr]

/-- Every content returned by `encodeAll` has exactly `2^k` bits. -/
theorem encodeAll_mem_length (k : Nat) :
    ∀ (pats : List Bits) (L : List Bits), encodeAll k pats = .ok L →
      ∀ b ∈ L, b.length = 2 ^ k := by
  intro pats
  induction pats with
  | nil => intro L h b hb; cases h; simp at hb
  | cons p ps ih =>
    intro L h b hb
    unfold encodeAll at h
    cases hp : _plain_bits p k with
    | error e => rw [hp] at h; exact absurd h (by simp)
    | ok b0 =>
      rw [hp] at h
      cases hr : encodeAll k ps with
      | error e => rw [hr] at h; exact absurd h (by simp)
      | ok rest =>
        rw [hr] at h
        simp only [Except.ok.injEq] at h
        subst h
        rcases List.mem_cons.mp hb with hb0 | hbr
        · subst hb0; exact (_plain_bits_ok p k b hp).2
        · exact ih rest hr b hbr

/-! ## Claim theorems -/

/-- C1 (counterexample): with exactly two parameter sets and result rows
for indices 0 and 1 that are both UNSUCCESSFUL, the diff analyzer does
not abort: it still produces a report, because `success` is never
consulted, contrary to the claim's "both successful" precondition. -/
theorem C1_success_not_required :
    _analyze_results 2 [⟨0, false, {1, 2, 5}⟩, ⟨1, false, {2, 5, 9}⟩] 4
      = some ⟨[1, 9], 1⟩ := by
  have h : (symmDiff ({1, 2, 5} : Finset ℕ) {2, 5, 9}) = {1, 9} := by decide
  have hs : Finset.sort (· ≤ ·) ({1, 9} : Finset ℕ) = [1, 9] := by
    rw [Finset.sort_insert (· ≤ ·) (by decide) (by decide), Finset.sort_singleton]
  simp [_analyze_results, List.find?, h, hs, ceilPow2Div]

/-- C1 (amended): the diff analyzer aborts — produces no report and hence
no artifact and no DB rows — exactly when the group does not hold two
parameter sets or a result row with param index 0 or 1 is missing; the
results' success flags play no part. -/
theorem C1_abort_iff (dynParamCount : Nat) (results : List BuildResult) (k : Nat) :
    _analyze_results dynParamCount results k = none ↔
      dynParamCount ≠ 2 ∨
      results.find? (fun r => r.param_index = 0) = none ∨
      results.find? (fun r => r.param_index = 1) = none := by
  unfold _analyze_results
  by_cases hdc : dynParamCount = 2
  · cases hb : results.find? (fun r => r.param_index = 0) <;>
      cases hi : results.find? (fun r => r.param_index = 1) <;>
      simp [hdc, hb, hi]
  · simp [hdc]

/-- C2: on a base result (param index 0) and an inverted result
(param index 1) the diff analyzer reports the sorted symmetric difference
of the two offset sets and the ceiling of its size divided by `2^k`; on
offsets `{1,2,5}` and `{2,5,9}` with `k = 4` it reports `[1, 9]` with one
affected LUT. -/
theorem C2_xor_and_lut_count :
    (∀ (b i : BuildResult) (k : Nat), b.param_index = 0 → i.param_index = 1 →
      ∃ report, _analyze_results 2 [b, i] k = some report ∧
        (∀ x, x ∈ report.bit_offsets ↔
          ((x ∈ b.offsets ∧ x ∉ i.offsets) ∨ (x ∈ i.offsets ∧ x ∉ b.offsets))) ∧
        report.bit_offsets.Sorted (· ≤ ·) ∧
        report.bit_offsets.Nodup ∧
        (report.lut_count : ℤ) = ⌈(report.bit_offsets.length : ℚ) / ((2 : ℚ) ^ k)⌉) ∧
    _analyze_results 2 [⟨0, true, {1, 2, 5}⟩, ⟨1, true, {2, 5, 9}⟩] 4
      = some ⟨[1, 9], 1⟩ := by
  constructor
  · intro b i k hb hi
    refine ⟨⟨(symmDiff b.offsets i.offsets).sort (· ≤ ·),
      ceilPow2Div ((symmDiff b.offsets i.offsets).sort (· ≤ ·)).length k⟩, ?_, ?_, ?_, ?_, ?_⟩
    · simp [_analyze_results, List.find?, hb, hi]
    · intro x
      simp [Finset.mem_sort, Finset.mem_symmDiff]
    · exact Finset.sort_sorted _ _
    · exact Finset.sort_nodup _ _
    · exact ceilPow2Div_cast _ k
  · have h : (symmDiff ({1, 2, 5} : Finset ℕ) {2, 5, 9}) = {1, 9} := by decide
    have hs : Finset.sort (· ≤ ·) ({1, 9} : Finset ℕ) = [1, 9] := by
      rw [Finset.sort_insert (· ≤ ·) (by decide) (by decide), Finset.sort_singleton]
    simp [_analyze_results, List.find?, h, hs, ceilPow2Div]

/-- C2 witness: the general statement applied at the worked example. -/
theorem C2_xor_and_lut_count_witness :
    ∃ report, _analyze_results 2 [⟨0, true, {1, 2, 5}⟩, ⟨1, true, {2, 5, 9}⟩] 4
        = some report ∧
      (∀ x, x ∈ report.bit_offsets ↔
        ((x ∈ ({1, 2, 5} : Finset ℕ) ∧ x ∉ ({2, 5, 9} : Finset ℕ)) ∨
         (x ∈ ({2, 5, 9} : Finset ℕ) ∧ x ∉ ({1, 2, 5} : Finset ℕ)))) ∧
      report.bit_offsets.Sorted (· ≤ ·) ∧
      report.bit_offsets.Nodup ∧
      (report.lut_count : ℤ) = ⌈(report.bit_offsets.length : ℚ) / ((2 : ℚ) ^ 4)⌉ :=
  C2_xor_and_lut_count.1 ⟨0, true, {1, 2, 5}⟩ ⟨1, true, {2, 5, 9}⟩ 4 rfl rfl

/-- C3 (counterexample): the literal `8'b0001011001101000` declares width
8, which differs from `2^4 = 16`, yet both encoders accept it because its
stripped bit count is 16: the declared width prefix is never examined, so
a mismatched declared width is not rejected. -/
theorem C3_declared_width_ignored :
    declaredWidth ('8' :: Char.ofNat 39 :: 'b' :: String.toList "0001011001101000") = 8 ∧
    (8 : Nat) ≠ 2 ^ 4 ∧
    _plain_bits ('8' :: Char.ofNat 39 :: 'b' :: String.toList "0001011001101000") 4
      = .ok (String.toList "0001011001101000") ∧
    (_generate_init_values 1 4
      ('8' :: Char.ofNat 39 :: 'b' :: String.toList "0001011001101000")).isOk = true :=
  ⟨by rfl, by norm_num, by rfl, by rfl⟩

/-- C3 (amended): the encoders never examine the declared width prefix —
acceptance and output depend only on the stripped bit content, so two
literals with equal stripped content encode identically for every `k`,
and a literal whose declared width disagrees with `2^K` is accepted
whenever its stripped bit count equals `2^k`. -/
theorem C3_only_stripped_bits_matter (p q : Bits) (k n : Nat)
    (hlast : stripUnderscores (afterLastB p) = stripUnderscores (afterLastB q))
    (hfirst : stripUnderscores (afterFirstB p) = stripUnderscores (afterFirstB q)) :
    _plain_bits p k = _plain_bits q k ∧
    _generate_init_values n k p = _generate_init_values n k q := by
  unfold _plain_bits _generate_init_values
  rw [hlast, hfirst]
  exact ⟨rfl, rfl⟩

/-- C3 witness: a prefix-free literal and one declaring width 99 with the
same stripped content encode identically. -/
theorem C3_only_stripped_bits_matter_witness :
    _plain_bits ('9' :: '9' :: Char.ofNat 39 :: 'b' :: String.toList "0101") 2
      = _plain_bits ('b' :: String.toList "0101") 2 ∧
    _generate_init_values 3 2 ('9' :: '9' :: Char.ofNat 39 :: 'b' :: String.toList "0101")
      = _generate_init_values 3 2 ('b' :: String.toList "0101") :=
  C3_only_stripped_bits_matter _ _ 2 3 (by rfl) (by rfl)

/-- C4 (counterexample): a zero-length chain with no static patterns is
NOT an error: the builder returns the empty flat literal of width 0. -/
theorem C4_empty_not_an_error :
    _build_flat_init_literal 0 4 [] (fun _ _ => false) = .ok ⟨0, []⟩ := by rfl

/-- C4 (amended): when every static pattern encodes, the builder fails
with the count-mismatch error exactly when the patterns outnumber the `n`
chain slots; an empty pattern sequence — in particular `n = 0` with no
static patterns — succeeds. -/
theorem C4_count_mismatch_iff (n k : Nat) (pats : List Bits) (rng : Nat → Nat → Bool)
    (L : List Bits) (henc : encodeAll k pats = .ok L) :
    (_build_flat_init_literal n k pats rng
        = .error "More static patterns than LUTs in the chain" ↔ n < pats.length) ∧
    _build_flat_init_literal 0 k [] rng = .ok ⟨0, []⟩ := by
  have hL := encodeAll_length k pats L henc
  constructor
  · unfold _build_flat_init_literal
    rw [henc]
    by_cases hgt : L.length > n
    · simp only [if_pos hgt]
      simp only [true_iff, iff_true]
      omega
    · simp only [if_neg hgt]
      simp only [reduceCtorEq, false_iff]
      omega
  · rfl

/-- C4 witness: two static patterns into a one-slot chain fail with the
count-mismatch error. -/
theorem C4_count_mismatch_iff_witness :
    (_build_flat_init_literal 1 1 [('b' :: String.toList "01"), ('b' :: String.toList "10")]
        (fun _ _ => false)
        = .error "More static patterns than LUTs in the chain" ↔ 1 < 2) ∧
    _build_flat_init_literal 0 1 [] (fun _ _ => false) = .ok ⟨0, []⟩ :=
  C4_count_mismatch_iff 1 1 _ _ [['0', '1'], ['1', '0']] (by rfl)

/-- C5: packing is reverse-ordered for EVERY input sequence — the flat
literal is the concatenation of the encoded contents in reverse order of
the logical sequence, so the highest-index (last) literal's bits occupy
the most-significant slice — and it is order-sensitive: two distinct
`2^k`-bit contents packed in the two orders give different flat
literals. -/
theorem C5_pack_order_sensitive :
    (∀ (n k : Nat) (pats L : List Bits) (rng : Nat → Nat → Bool) (last : Bits),
      encodeAll k pats = .ok L → L.length = n → L.getLast? = some last →
      ∃ lit, _build_flat_init_literal n k pats rng = .ok lit ∧
        lit.bits = L.reverse.flatten ∧
        lit.bits.take (2 ^ k) = last) ∧
    (∀ (k : Nat) (pA pB A B : Bits) (rng rng2 : Nat → Nat → Bool),
      _plain_bits pA k = .ok A → _plain_bits pB k = .ok B → A ≠ B →
      _build_flat_init_literal 2 k [pA, pB] rng = .ok ⟨2 ^ k + 2 ^ k, B ++ A⟩ ∧
      _build_flat_init_literal 2 k [pB, pA] rng2 = .ok ⟨2 ^ k + 2 ^ k, A ++ B⟩ ∧
      B ++ A ≠ A ++ B ∧
      (B ++ A).take (2 ^ k) = B) := by
  constructor
  · intro n k pats L rng last henc hn hlast
    have hlen := encodeAll_length k pats L henc
    have hsplit : L.dropLast ++ [last] = L :=
      List.dropLast_append_getLast? last (by simp [Option.mem_def, hlast])
    have hmem : last ∈ L := by
      rw [← hsplit]
      simp
    have hlastlen : last.length = 2 ^ k := encodeAll_mem_length k pats L henc last hmem
    refine ⟨⟨L.reverse.flatten.length, L.reverse.flatten⟩, ?_, rfl, ?_⟩
    · unfold _build_flat_init_literal
      rw [henc]
      simp only [if_neg (show ¬ L.length > n by omega)]
      have h0 : n - L.length = 0 := by omega
      simp [h0]
    · show (L.reverse.flatten).take (2 ^ k) = last
      conv_lhs => rw [← hsplit]
      rw [List.reverse_append, List.reverse_singleton, List.singleton_append,
        List.flatten_cons, ← hlastlen]
      exact List.take_left last _
  · intro k pA pB A B rng rng2 hA hB hne
    obtain ⟨-, hlA⟩ := _plain_bits_ok pA k A hA
    obtain ⟨-, hlB⟩ := _plain_bits_ok pB k B hB
    have hAB : encodeAll k [pA, pB] = .ok [A, B] := by simp [encodeAll, hA, hB]
    have hBA : encodeAll k [pB, pA] = .ok [B, A] := by simp [encodeAll, hA, hB]
    refine ⟨?_, ?_, ?_, ?_⟩
    · unfold _build_flat_init_literal
      rw [hAB]
      simp [hlA, hlB]
    · unfold _build_flat_init_literal
      rw [hBA]
      simp [hlA, hlB]
    · intro hEq
      obtain ⟨h1, -⟩ := List.append_inj hEq (by omega)
      exact hne h1.symm
    · rw [← hlB]
      exact List.take_left B A

/-- C5 witness: a three-element sequence `01, 10, 11` (k = 1) packs to
`11` then `10` then `01` with `11` — the last, highest-index content — as
the most-significant slice; and packing `01` and `10` in the two orders
gives the two distinct literals `1001` and `0110`. -/
theorem C5_pack_order_sensitive_witness :
    (∃ lit, _build_flat_init_literal 3 1
        ['b' :: String.toList "01", 'b' :: String.toList "10", 'b' :: String.toList "11"]
        (fun _ _ => false) = .ok lit ∧
      lit.bits = ([['0', '1'], ['1', '0'], ['1', '1']] : List Bits).reverse.flatten ∧
      lit.bits.take (2 ^ 1) = ['1', '1']) ∧
    (_build_flat_init_literal 2 1 ['b' :: String.toList "01", 'b' :: String.toList "10"]
        (fun _ _ => false) = .ok ⟨2 ^ 1 + 2 ^ 1, ['1', '0'] ++ ['0', '1']⟩ ∧
      _build_flat_init_literal 2 1 ['b' :: String.toList "10", 'b' :: String.toList "01"]
        (fun _ _ => true) = .ok ⟨2 ^ 1 + 2 ^ 1, ['0', '1'] ++ ['1', '0']⟩ ∧
      ['1', '0'] ++ ['0', '1'] ≠ ['0', '1'] ++ ['1', '0'] ∧
      (['1', '0'] ++ ['0', '1']).take (2 ^ 1) = ['1', '0']) :=
  ⟨C5_pack_order_sensitive.1 3 1 _ [['0', '1'], ['1', '0'], ['1', '1']] _ ['1', '1']
      (by rfl) (by rfl) (by rfl),
   C5_pack_order_sensitive.2 1 _ _ _ _ _ _ (by rfl) (by rfl) (by decide)⟩

/-- C6: with encodable static patterns, more patterns than the `n` chain
slots always fails with the overflow error; exactly `n` patterns produce
the chain of just the static contents, independent of the random source;
no static patterns produce an all-random chain of `n` slots, each slot a
fresh `2^k`-bit draw. -/
theorem C6_chain_designer (n k : Nat) (pats : List Bits) (rng : Nat → Nat → Bool)
    (L : List Bits) (henc : encodeAll k pats = .ok L) :
    (pats.length > n → _build_flat_init_literal n k pats rng
        = .error "More static patterns than LUTs in the chain") ∧
    (pats.length = n → _build_flat_init_literal n k pats rng
        = .ok ⟨L.reverse.flatten.length, L.reverse.flatten⟩) ∧
    (pats = [] → _build_flat_init_literal n k pats rng
        = .ok ⟨((List.range n).map (randSlot rng (2 ^ k))).reverse.flatten.length,
               ((List.range n).map (randSlot rng (2 ^ k))).reverse.flatten⟩ ∧
      ∀ i, (randSlot rng (2 ^ k) i).length = 2 ^ k) := by
  have hL := encodeAll_length k pats L henc
  refine ⟨?_, ?_, ?_⟩
  · intro hgt
    unfold _build_flat_init_literal
    rw [henc]
    simp only [if_pos (show L.length > n by omega)]
  · intro heq
    unfold _build_flat_init_literal
    rw [henc]
    simp only [if_neg (show ¬ L.length > n by omega)]
    have h0 : n - L.length = 0 := by omega
    simp [h0]
  · intro hnil
    subst hnil
    cases henc
    constructor
    · unfold _build_flat_init_literal
      simp [encodeAll]
    · intro i
      simp [randSlot]

/-- C6 witness: the no-static-pattern case at `n = 2`, `k = 1`: the chain
is two freshly drawn slots, reverse-packed. -/
theorem C6_chain_designer_witness :
    _build_flat_init_literal 2 1 [] (fun s j => s = j)
        = .ok ⟨((List.range 2).map (randSlot (fun s j => s = j) (2 ^ 1))).reverse.flatten.length,
               ((List.range 2).map (randSlot (fun s j => s = j) (2 ^ 1))).reverse.flatten⟩ ∧
      ∀ i, (randSlot (fun s j => s = j) (2 ^ 1) i).length = 2 ^ 1 :=
  (C6_chain_designer 2 1 [] (fun s j => s = j) [] (by rfl)).2.2 rfl

/-- C7: encoding yields exactly the stripped bit content — never
truncated or padded — and succeeds precisely when that content has `2^k`
bits, in both the complementary-pair encoder (`_generate_init_values`,
which also reports total width `n * 2^k`) and the chain encoder
(`_plain_bits`); any other stripped bit count is the width-mismatch
error. -/
theorem C7_width_check (p : Bits) (k n : Nat) :
    (_plain_bits p k = .ok (stripUnderscores (afterLastB p)) ∨
      _plain_bits p k = .error "pattern bit count mismatch") ∧
    ((_plain_bits p k).isOk = true ↔ (stripUnderscores (afterLastB p)).length = 2 ^ k) ∧
    (_generate_init_values n k p
        = .ok ⟨n * 2 ^ k, (List.replicate n (stripUnderscores (afterFirstB p))).flatten⟩ ∨
      _generate_init_values n k p = .error "INIT pattern bit count mismatch") ∧
    ((_generate_init_values n k p).isOk = true ↔
      (stripUnderscores (afterFirstB p)).length = 2 ^ k) := by
  unfold _plain_bits _generate_init_values
  by_cases h1 : (stripUnderscores (afterLastB p)).length = 2 ^ k <;>
    by_cases h2 : (stripUnderscores (afterFirstB p)).length = 2 ^ k <;>
    simp [h1, h2, Except.isOk, Except.toBool, List.length_flatten, List.map_replicate,
      List.sum_replicate, smul_eq_mul, Nat.mul_comm]

/-- C8: the chain-statistics analyzer skips — no ChainStats, no DB rows —
exactly when no successful result row matches the group's parameter
set. -/
theorem C8_skip_iff (results : List ResultRow) (ps : VParams) :
    analyze_results results ps = .ok none ↔
      ¬ ∃ r ∈ results, r.success = true ∧ r.vparams = ps := by
  unfold analyze_results
  cases hf : results.find? (fun r => r.success && r.vparams == ps) with
  | none =>
    rw [List.find?_eq_none] at hf
    have hno : ¬ ∃ r ∈ results, r.success = true ∧ r.vparams = ps := by
      push_neg
      intro r hr hse
      have hnr := hf r hr
      simp only [Bool.and_eq_true, beq_iff_eq, not_and] at hnr
      exact hnr hse
    simp [hno]
  | some r =>
    have hp := List.find?_some hf
    have hm := List.mem_of_find?_eq_some hf
    simp only [Bool.and_eq_true, beq_iff_eq] at hp
    have hex : ∃ x ∈ results, x.success = true ∧ x.vparams = ps := ⟨r, hm, hp.1, hp.2⟩
    by_cases hN : ps.N = 0
    · simp only [if_pos hN]
      simp [hex]
    · simp only [if_neg hN]
      simp [hex]

/-- C9: on a successful matching result the analyzer reports
`total_bits = len(offsets)` and the real-valued `bits_per_lut =
total_bits / N`; a zero `N` is the division error; and 4600 offsets over
1152 LUTs render as 3.99 (399 hundredths). -/
theorem C9_chain_stats (r : ResultRow) (ps : VParams)
    (hs : r.success = true) (hv : r.vparams = ps) :
    (0 < ps.N → analyze_results [r] ps
        = .ok (some ⟨ps.N, r.offsets.length, (r.offsets.length : ℚ) / (ps.N : ℚ)⟩)) ∧
    (ps.N = 0 → analyze_results [r] ps = .error "ZeroDivisionError") ∧
    render2 ((4600 : ℚ) / (1152 : ℚ)) = 399 := by
  have hfind : List.find? (fun x => x.success && x.vparams == ps) [r] = some r := by
    simp [List.find?, hs, hv]
  refine ⟨?_, ?_, ?_⟩
  · intro hN
    unfold analyze_results
    rw [hfind]
    simp only [if_neg (show ¬ ps.N = 0 by omega)]
  · intro hN
    unfold analyze_results
    rw [hfind]
    simp only [if_pos hN]
  · unfold render2
    rw [round_eq]
    norm_num

/-- C9 witness: a successful matching result with `N = 3` and two
reported offsets yields `total_bits = 2` and `bits_per_lut = 2 / 3`. -/
theorem C9_chain_stats_witness :
    analyze_results [⟨true, ⟨3, 4, ⟨0, []⟩⟩, [5, 7]⟩] ⟨3, 4, ⟨0, []⟩⟩
      = .ok (some ⟨3, ([5, 7] : List Nat).length,
          (([5, 7] : List Nat).length : ℚ) / ((3 : ℕ) : ℚ)⟩) :=
  (C9_chain_stats ⟨true, ⟨3, 4, ⟨0, []⟩⟩, [5, 7]⟩ ⟨3, 4, ⟨0, []⟩⟩
    rfl rfl).1 (by norm_num)

/-- C10: a persisted diff row is tagged `"base"` exactly when its row
context carries param index 0; a missing index or a missing row context
defaults to -1 and is tagged `"inverted"`; the artifact path, the
comma-joined bit list and the affected-LUT count are identical across all
row contexts. -/
theorem C10_extra_cols (off_path : String) (xor : List Nat) (activated : Nat)
    (res res2 : Option RowCtx) :
    ((_extra off_path xor activated res).pattern_type = "base" ↔
      (∃ r, res = some r ∧ r.param_index = some 0)) ∧
    (_extra off_path xor activated none).pattern_type = "inverted" ∧
    (_extra off_path xor activated (some ⟨none⟩)).pattern_type = "inverted" ∧
    (_extra off_path xor activated res).lut_config_bits_file
      = (_extra off_path xor activated res2).lut_config_bits_file ∧
    (_extra off_path xor activated res).lut_config_bits
      = (_extra off_path xor activated res2).lut_config_bits ∧
    (_extra off_path xor activated res).activated_luts
      = (_extra off_path xor activated res2).activated_luts := by
  refine ⟨?_, by rfl, by rfl, by rfl, by rfl, by rfl⟩
  unfold _extra
  match res with
  | none => simp
  | some r =>
    match hpi : r.param_index with
    | none => simp [hpi]
    | some v =>
      by_cases hv : v = 0 <;> simp [hpi, hv]

end Foxtrot
